import Mathlib

/-!
# XenoScan `KeyedFactory.h`: keyed factory with self-registering producers

A shallow embedding of `src/XenoScanEngine/KeyedFactory.h`.

* `std::map<K, V>` is an association list searched and updated with `operator<` only
  (`StdMap.find`, `StdMap.subscriptAssign`), the way the ordered container does.
* `new T()` allocates a fresh cell in an explicit free store (`Heap`); a
  `std::shared_ptr<A>` is `Option Nat`, `none` being `nullptr`.
* Pointers to factories are indices into the list of factory objects of a `Memory`;
  a call through a pointer that designates no factory has no defined result (`none`).
-/

namespace XenoScan

/-! ## Free store -/

/-- The free store: cell `i` holds the object that the `i`-th `new` built, seen through
its base class `A`. Objects stay alive as long as a `shared_ptr` to them is held; the
model never releases a cell. -/
structure Heap (A : Type) where
  cells : List A

/-- A `std::shared_ptr<A>`: `none` is `nullptr`, `some a` owns the object in cell `a`. -/
abbrev SharedPtr := Option Nat

/-- The expression `new T()` where `v` is the default-constructed `T`: the address of the
fresh cell, and the store extended by it. -/
def Heap.alloc {A : Type} (h : Heap A) (v : A) : Nat × Heap A :=
  (h.cells.length, ⟨h.cells ++ [v]⟩)

/-- Reading the object a pointer designates. -/
def Heap.read {A : Type} (h : Heap A) (a : Nat) : Option A :=
  h.cells[a]?

/-- Overwriting (mutating) the object in cell `a`. -/
def Heap.write {A : Type} (h : Heap A) (a : Nat) (v : A) : Heap A :=
  ⟨h.cells.set a v⟩

/-! ## `std::map` -/

namespace StdMap

/-- The call `m.find(key)`: the entry whose key is equivalent to `key` under `operator<`,
or `none` for `m.end()`. -/
def find {K V : Type} [LinearOrder K] (key : K) : List (K × V) → Option (K × V)
  | [] => none
  | e :: rest =>
    if key < e.1 then none
    else if e.1 < key then find key rest
    else some e

/-- The statement `m[key] = v`: `operator[]` locates the entry of `key`, inserting one in
key order when there is none, and the mapped value is assigned. -/
def subscriptAssign {K V : Type} [LinearOrder K] (key : K) (v : V) :
    List (K × V) → List (K × V)
  | [] => [(key, v)]
  | e :: rest =>
    if key < e.1 then (key, v) :: e :: rest
    else if e.1 < key then e :: subscriptAssign key v rest
    else (e.1, v) :: rest

/-- The keys of the entries, in iteration order. -/
def keys {K V : Type} (m : List (K × V)) : List K :=
  m.map Prod.fst

/-- The container's ordering invariant: keys strictly ascending, hence no key twice. -/
def Ordered {K V : Type} [LinearOrder K] (m : List (K × V)) : Prop :=
  (keys m).Pairwise (fun a b => a < b)

end StdMap

/-! ## Producers -/

/-- An object of (a subclass of) `KeyedProducerBase<K, A>` seen through a base pointer:
its address and its two virtual functions. Producers are immutable. -/
structure KeyedProducerBase (K A : Type) where
  addr : Nat
  getKey : K
  createInstance : Heap A → SharedPtr × Heap A

/-- A concrete product class `T` deriving from `A`: its static member `T::Key` and the
object its default constructor `T()` builds. -/
structure ProductClass (K A : Type) where
  Key : K
  ctor : A

/-- `KeyedProducer<K, A, T>::getKey`: returns `T::Key`. -/
def KeyedProducer.getKey {K A : Type} (T : ProductClass K A) : K :=
  T.Key

/-- `KeyedProducer<K, A, T>::createInstance`: `std::shared_ptr<A>(new T())`. -/
def KeyedProducer.createInstance {K A : Type} (T : ProductClass K A) (h : Heap A) :
    SharedPtr × Heap A :=
  let r := h.alloc T.ctor
  (some r.1, r.2)

/-- The object of class `KeyedProducer<K, A, T>` located at `addr`. -/
def KeyedProducer {K A : Type} (addr : Nat) (T : ProductClass K A) : KeyedProducerBase K A :=
  ⟨addr, KeyedProducer.getKey T, KeyedProducer.createInstance T⟩

/-! ## Factory -/

/-- The class `KeyedFactory<K, A>`: its only member is the map `producers`. -/
structure KeyedFactory (K A : Type) where
  producers : List (K × KeyedProducerBase K A)

namespace KeyedFactory

variable {K A : Type} [LinearOrder K]

/-- The constructor `KeyedFactory() {}`: the map is default-constructed, empty. -/
def new : KeyedFactory K A :=
  ⟨[]⟩

/-- `KeyedFactory::createInstance(key)`: `find`, then the producer's `createInstance`, or
`nullptr` when `find` returns `end()`. -/
def createInstance (F : KeyedFactory K A) (key : K) (h : Heap A) : SharedPtr × Heap A :=
  match StdMap.find key F.producers with
  | some producer => producer.2.createInstance h
  | none => (none, h)

/-- `KeyedFactory::registerProducer(producer)`:
`producers[producer->getKey()] = producer`. -/
def registerProducer (F : KeyedFactory K A) (producer : KeyedProducerBase K A) :
    KeyedFactory K A :=
  ⟨StdMap.subscriptAssign producer.getKey producer F.producers⟩

/-- A sequence of `registerProducer` calls, in list order. -/
def registerAll (F : KeyedFactory K A) (ps : List (KeyedProducerBase K A)) :
    KeyedFactory K A :=
  ps.foldl registerProducer F

/-- The keys registered in the factory. -/
def registeredKeys (F : KeyedFactory K A) : List K :=
  StdMap.keys F.producers

end KeyedFactory

/-! ## Objects in memory, calls through pointers -/

/-- The objects of a running process that the header talks about: the factory objects (a
`KeyedFactory<K, A>*` is an index into `factories`) and the free store. -/
structure Memory (K A : Type) where
  factories : List (KeyedFactory K A)
  heap : Heap A

section Pointers

variable {K A : Type} [LinearOrder K]

/-- The call `factory->registerProducer(producer)` through a factory pointer. -/
def Memory.registerProducer (m : Memory K A) (factory : Nat)
    (producer : KeyedProducerBase K A) : Option (Memory K A) :=
  match m.factories[factory]? with
  | some F => some ⟨m.factories.set factory (F.registerProducer producer), m.heap⟩
  | none => none

/-- The call `factory->createInstance(key)` through a factory pointer: the returned
pointer and the memory afterwards. -/
def Memory.createInstance (m : Memory K A) (factory : Nat) (key : K) :
    Option (SharedPtr × Memory K A) :=
  match m.factories[factory]? with
  | some F =>
    let r := F.createInstance key m.heap
    some (r.1, ⟨m.factories, r.2⟩)
  | none => none

/-- `KeyedProducerBase::registerTo(factory)`: `factory->registerProducer(this)`. -/
def KeyedProducerBase.registerTo (self : KeyedProducerBase K A) (factory : Nat)
    (m : Memory K A) : Option (Memory K A) :=
  m.registerProducer factory self

/-- The constructor `KeyedProducer(KeyedFactory<K, A>* factory)` run for the object at
`addr`: `this->registerTo(factory)`. Returns the constructed producer and the memory. -/
def KeyedProducer.construct (addr : Nat) (T : ProductClass K A) (factory : Nat)
    (m : Memory K A) : Option (KeyedProducerBase K A × Memory K A) :=
  match (KeyedProducer addr T).registerTo factory m with
  | some m1 => some (KeyedProducer addr T, m1)
  | none => none

/-- The macro `CREATE_FACTORY(CLASS)`: defines the object `CLASS::Factory`,
default-constructed. Returns its address and the memory holding it. -/
def CREATE_FACTORY (m : Memory K A) : Nat × Memory K A :=
  (m.factories.length, ⟨m.factories ++ [KeyedFactory.new], m.heap⟩)

/-- The macro `CREATE_PRODUCER(CLASS, T, KEY)`: defines `T::Key = KEY` and then the object
`Keyed_T_Producer`, constructed with `&CLASS::Factory`. `ctorT` is the object `T()`
builds, `factory` the address of `CLASS::Factory`, `addr` the address of the producer. -/
def CREATE_PRODUCER (factory : Nat) (addr : Nat) (ctorT : A) (KEY : K) (m : Memory K A) :
    Option (KeyedProducerBase K A × Memory K A) :=
  KeyedProducer.construct addr ⟨KEY, ctorT⟩ factory m

end Pointers

/-! ## Reference definitions and scenario data -/

/-- The last producer of a registration sequence whose `getKey()` is `key`, if any. -/
def lastProducerWithKey {K A : Type} [LinearOrder K] (key : K)
    (ps : List (KeyedProducerBase K A)) : Option (KeyedProducerBase K A) :=
  (ps.filter (fun P => decide (P.getKey = key))).getLast?

namespace Scenario

/-- Objects of the product family of the scenarios: the name of the concrete class and one
data member. -/
structure Obj where
  className : String
  field : Nat
deriving DecidableEq, Repr

/-- Product class `Alpha`, declared with key `"alpha"`. -/
def Alpha : ProductClass String Obj := ⟨"alpha", ⟨"Alpha", 0⟩⟩

/-- Product class `Beta`, declared with key `"beta"`. -/
def Beta : ProductClass String Obj := ⟨"beta", ⟨"Beta", 0⟩⟩

/-- Product class `Gamma1`, declared with key `"gamma"`. -/
def Gamma1 : ProductClass String Obj := ⟨"gamma", ⟨"Gamma1", 0⟩⟩

/-- Product class `Gamma2`, declared with key `"gamma"` as well. -/
def Gamma2 : ProductClass String Obj := ⟨"gamma", ⟨"Gamma2", 0⟩⟩

/-- The empty free store. -/
def emptyHeap : Heap Obj := ⟨[]⟩

/-- A producer of a class that derives from `KeyedProducerBase` directly, not from
`KeyedProducer`: its `getKey()` returns `"alpha"` and its `createInstance()` returns an
empty `shared_ptr`, without allocating. -/
def NullProducer : KeyedProducerBase String Obj := ⟨9, "alpha", fun h => (none, h)⟩

end Scenario

/-- The mapping invariant of a factory: the keys of `producers` are strictly ascending,
so no key has two entries, and every entry holds a producer whose `getKey()` is the key
of the entry. -/
def KeyedFactory.Invariant {K A : Type} [LinearOrder K] (F : KeyedFactory K A) : Prop :=
  StdMap.Ordered F.producers ∧ ∀ e ∈ F.producers, e.2.getKey = e.1

/-- One call on a factory object: `registerProducer(producer)` or `createInstance(key)`,
the two member functions of `KeyedFactory` besides the constructor. -/
inductive FactoryCall (K A : Type) where
  | registerProducer (producer : KeyedProducerBase K A)
  | createInstance (key : K)

/-- Running a sequence of calls, in list order, on a factory and the free store: a
`registerProducer` call changes the factory, a `createInstance` call the free store. -/
def KeyedFactory.run {K A : Type} [LinearOrder K] (F : KeyedFactory K A) (h : Heap A) :
    List (FactoryCall K A) → KeyedFactory K A × Heap A
  | [] => (F, h)
  | FactoryCall.registerProducer P :: cs => KeyedFactory.run (F.registerProducer P) h cs
  | FactoryCall.createInstance key :: cs => KeyedFactory.run F (F.createInstance key h).2 cs

/-! ## Lemmas on `std::map` -/

namespace StdMap

variable {K V : Type} [LinearOrder K]

theorem find_subscriptAssign_self (key : K) (v : V) (m : List (K × V)) :
    find key (subscriptAssign key v m) = some (key, v) := by
  induction m with
  | nil => simp [subscriptAssign, find]
  | cons e rest ih =>
    unfold subscriptAssign
    by_cases h1 : key < e.1
    · simp [h1, find]
    · by_cases h2 : e.1 < key
      · simp [h1, h2, find, ih]
      · have he : e.1 = key := le_antisymm (not_lt.mp h1) (not_lt.mp h2)
        simp [h1, h2, find, he]

theorem find_subscriptAssign_of_ne {k key : K} (hne : k ≠ key) (v : V) (m : List (K × V)) :
    find k (subscriptAssign key v m) = find k m := by
  induction m with
  | nil =>
    rcases lt_or_gt_of_ne hne with h | h
    · simp [subscriptAssign, find, h]
    · simp [subscriptAssign, find, h, not_lt_of_gt h]
  | cons e rest ih =>
    unfold subscriptAssign
    by_cases h1 : key < e.1
    · rw [if_pos h1]
      rcases lt_or_gt_of_ne hne with h | h
      · simp [find, h, lt_trans h h1]
      · simp [find, h, not_lt_of_gt h]
    · rw [if_neg h1]
      by_cases h2 : e.1 < key
      · rw [if_pos h2]
        simp only [find, ih]
      · rw [if_neg h2]
        have he : e.1 = key := le_antisymm (not_lt.mp h1) (not_lt.mp h2)
        have hne2 : k ≠ e.1 := he ▸ hne
        rcases lt_or_gt_of_ne hne2 with h | h
        · simp [find, h]
        · simp [find, h, not_lt_of_gt h]

end StdMap

/-! ## Lemmas on the factory -/

namespace KeyedFactory

variable {K A : Type} [LinearOrder K]

theorem find_registerProducer_self (F : KeyedFactory K A) (P : KeyedProducerBase K A) :
    StdMap.find P.getKey (F.registerProducer P).producers = some (P.getKey, P) :=
  StdMap.find_subscriptAssign_self _ _ _

theorem find_registerProducer_of_ne (F : KeyedFactory K A) (P : KeyedProducerBase K A)
    {k : K} (hne : k ≠ P.getKey) :
    StdMap.find k (F.registerProducer P).producers = StdMap.find k F.producers :=
  StdMap.find_subscriptAssign_of_ne hne _ _

theorem registerAll_nil (F : KeyedFactory K A) : F.registerAll [] = F := rfl

theorem registerAll_cons (F : KeyedFactory K A) (P : KeyedProducerBase K A)
    (ps : List (KeyedProducerBase K A)) :
    F.registerAll (P :: ps) = (F.registerProducer P).registerAll ps := rfl

theorem registerAll_append (F : KeyedFactory K A) (ps qs : List (KeyedProducerBase K A)) :
    F.registerAll (ps ++ qs) = (F.registerAll ps).registerAll qs := by
  simp [registerAll, List.foldl_append]

/-- Registrations under other keys leave the entry found for `k` as it was. -/
theorem find_registerAll_of_forall_ne (F : KeyedFactory K A)
    (ps : List (KeyedProducerBase K A)) (k : K) (hne : ∀ Q ∈ ps, Q.getKey ≠ k) :
    StdMap.find k (F.registerAll ps).producers = StdMap.find k F.producers := by
  induction ps generalizing F with
  | nil => rfl
  | cons P ps ih =>
    rw [registerAll_cons, ih _ (fun Q hQ => hne Q (List.mem_cons_of_mem _ hQ))]
    exact find_registerProducer_of_ne F P (fun h => hne P (List.mem_cons_self _ _) h.symm)

/-- After a registration sequence, `find` returns the last producer registered under the
key, and the previous entry when there is none. -/
theorem find_registerAll (F : KeyedFactory K A) (ps : List (KeyedProducerBase K A)) (k : K) :
    StdMap.find k (F.registerAll ps).producers =
      match lastProducerWithKey k ps with
      | some P => some (k, P)
      | none => StdMap.find k F.producers := by
  induction ps using List.reverseRecOn with
  | nil => rfl
  | append_singleton ps P ih =>
    rw [registerAll_append, registerAll_cons, registerAll_nil]
    by_cases hk : P.getKey = k
    · have hl : lastProducerWithKey k (ps ++ [P]) = some P := by
        simp [lastProducerWithKey, List.filter_append, hk]
      rw [hl]
      subst hk
      exact find_registerProducer_self _ P
    · have hl : lastProducerWithKey k (ps ++ [P]) = lastProducerWithKey k ps := by
        simp [lastProducerWithKey, List.filter_append, hk]
      rw [hl, find_registerProducer_of_ne _ P (fun h => hk h.symm)]
      exact ih

theorem createInstance_of_find_some (F : KeyedFactory K A) (k : K) (h : Heap A)
    {e : K × KeyedProducerBase K A} (he : StdMap.find k F.producers = some e) :
    F.createInstance k h = e.2.createInstance h := by
  simp [createInstance, he]

theorem createInstance_of_find_none (F : KeyedFactory K A) (k : K) (h : Heap A)
    (he : StdMap.find k F.producers = none) :
    F.createInstance k h = (none, h) := by
  simp [createInstance, he]

theorem lastProducerWithKey_append_of_forall_ne (k : K) (pre post : List (KeyedProducerBase K A))
    (P : KeyedProducerBase K A) (hP : P.getKey = k) (hne : ∀ Q ∈ post, Q.getKey ≠ k) :
    lastProducerWithKey k (pre ++ P :: post) = some P := by
  have hpost : post.filter (fun Q => decide (Q.getKey = k)) = [] := by
    simpa [List.filter_eq_nil_iff] using hne
  simp [lastProducerWithKey, List.filter_append, List.filter_cons, hP, hpost]

theorem lastProducerWithKey_eq_none_iff (k : K) (ps : List (KeyedProducerBase K A)) :
    lastProducerWithKey k ps = none ↔ ∀ Q ∈ ps, Q.getKey ≠ k := by
  simp [lastProducerWithKey, List.getLast?_eq_none_iff, List.filter_eq_nil_iff]

theorem lastProducerWithKey_some (k : K) (ps : List (KeyedProducerBase K A))
    (P : KeyedProducerBase K A) (h : lastProducerWithKey k ps = some P) :
    P ∈ ps ∧ P.getKey = k := by
  have hm : P ∈ ps.filter (fun Q => decide (Q.getKey = k)) :=
    List.mem_of_getLast?_eq_some h
  simpa [List.mem_filter] using hm

end KeyedFactory

/-! ## Round trip, absence, collisions -/

section RoundTrip

open KeyedFactory Scenario

variable {K A : Type} [LinearOrder K]

/-- C1, as stated, fails on a key collision: with `Gamma1` and then `Gamma2` registered
under `"gamma"`, the producer of `Gamma1` is in the sequence, yet `createInstance("gamma")`
does not return what that producer builds; it returns a `Gamma2`. -/
theorem roundTrip_fails_for_overwritten_producer :
    KeyedProducer 0 Gamma1 ∈ [KeyedProducer 0 Gamma1, KeyedProducer 1 Gamma2] ∧
    (KeyedProducer 0 Gamma1).getKey = "gamma" ∧
    ((KeyedFactory.new.registerAll
        [KeyedProducer 0 Gamma1, KeyedProducer 1 Gamma2]).createInstance "gamma" emptyHeap
      ≠ (KeyedProducer 0 Gamma1).createInstance emptyHeap) ∧
    ((KeyedFactory.new.registerAll
        [KeyedProducer 0 Gamma1, KeyedProducer 1 Gamma2]).createInstance "gamma" emptyHeap).2.read 0
      = some ⟨"Gamma2", 0⟩ := by
  have hfind := find_registerAll (KeyedFactory.new : KeyedFactory String Obj)
    [KeyedProducer 0 Gamma1, KeyedProducer 1 Gamma2] "gamma"
  have hlast : lastProducerWithKey "gamma" [KeyedProducer 0 Gamma1, KeyedProducer 1 Gamma2]
      = some (KeyedProducer 1 Gamma2) := by
    simp [lastProducerWithKey, KeyedProducer, KeyedProducer.getKey, Gamma1, Gamma2]
  rw [hlast] at hfind
  rw [createInstance_of_find_some _ _ _ hfind]
  refine ⟨List.mem_cons_self _ _, rfl, ?_, rfl⟩
  intro h
  have h2 := congrArg (fun r => r.2.read 0) h
  simp [KeyedProducer, KeyedProducer.createInstance, Heap.alloc, Heap.read, emptyHeap,
    Gamma1, Gamma2] at h2

/-- C1 (amended): after any sequence of `registerProducer` calls on a fresh factory, for a
`KeyedProducer` of class `T` in the sequence that no later producer of the sequence
shares its key with, `createInstance(T::Key)` returns exactly what that producer's
`createInstance()` returns: a non-null pointer to a freshly allocated object, which is
the default-constructed `T`. -/
theorem createInstance_roundTrip (pre post : List (KeyedProducerBase K A)) (addr : Nat)
    (T : ProductClass K A) (h : Heap A) (hlast : ∀ Q ∈ post, Q.getKey ≠ T.Key) :
    (KeyedFactory.new.registerAll (pre ++ KeyedProducer addr T :: post)).createInstance
        (KeyedProducer addr T).getKey h
      = (KeyedProducer addr T).createInstance h ∧
    ((KeyedFactory.new.registerAll (pre ++ KeyedProducer addr T :: post)).createInstance
        (KeyedProducer addr T).getKey h).1 = some h.cells.length ∧
    ((KeyedFactory.new.registerAll (pre ++ KeyedProducer addr T :: post)).createInstance
        (KeyedProducer addr T).getKey h).1 ≠ none ∧
    ((KeyedFactory.new.registerAll (pre ++ KeyedProducer addr T :: post)).createInstance
        (KeyedProducer addr T).getKey h).2.read h.cells.length = some T.ctor := by
  have hfind := find_registerAll (KeyedFactory.new : KeyedFactory K A)
    (pre ++ KeyedProducer addr T :: post) (KeyedProducer addr T).getKey
  rw [lastProducerWithKey_append_of_forall_ne _ pre post (KeyedProducer addr T) rfl hlast]
    at hfind
  rw [createInstance_of_find_some _ _ _ hfind]
  refine ⟨rfl, rfl, ?_, ?_⟩
  · simp [KeyedProducer, KeyedProducer.createInstance]
  · simp [KeyedProducer, KeyedProducer.createInstance, Heap.alloc, Heap.read]

/-- Witness for C1 (amended): `Alpha` registered between `Gamma1` and `Beta`. -/
theorem createInstance_roundTrip_witness :
    (∀ Q ∈ [KeyedProducer 2 Beta], Q.getKey ≠ Alpha.Key) ∧
    (KeyedFactory.new.registerAll
        ([KeyedProducer 0 Gamma1] ++ KeyedProducer 1 Alpha :: [KeyedProducer 2 Beta])).createInstance
        (KeyedProducer 1 Alpha).getKey emptyHeap
      = (some 0, ⟨[⟨"Alpha", 0⟩]⟩) :=
  ⟨by simp [KeyedProducer, KeyedProducer.getKey, Alpha, Beta],
   (createInstance_roundTrip [KeyedProducer 0 Gamma1] [KeyedProducer 2 Beta] 1 Alpha emptyHeap
      (by simp [KeyedProducer, KeyedProducer.getKey, Alpha, Beta])).1⟩

end RoundTrip

theorem exists_last_with_key {K A : Type} (k : K) (ps : List (KeyedProducerBase K A))
    (hk : ∃ Q ∈ ps, Q.getKey = k) :
    ∃ pre post P, ps = pre ++ P :: post ∧ P.getKey = k ∧ ∀ Q ∈ post, Q.getKey ≠ k := by
  induction ps with
  | nil => simp at hk
  | cons R ps ih =>
    by_cases hps : ∃ Q ∈ ps, Q.getKey = k
    · obtain ⟨pre, post, P, hsplit, hP, hpost⟩ := ih hps
      exact ⟨R :: pre, post, P, by simp [hsplit], hP, hpost⟩
    · have hR : R.getKey = k := by
        obtain ⟨Q, hQ, hQk⟩ := hk
        rcases List.mem_cons.mp hQ with rfl | hQ
        · exact hQk
        · exact absurd ⟨Q, hQ, hQk⟩ hps
      exact ⟨[], ps, R, rfl, hR, fun Q hQ hQk => hps ⟨Q, hQ, hQk⟩⟩

theorem StdMap.keys_subscriptAssign_of_find_some {K V : Type} [LinearOrder K] (key : K) (v : V)
    (m : List (K × V)) {e : K × V} (he : StdMap.find key m = some e) :
    StdMap.keys (StdMap.subscriptAssign key v m) = StdMap.keys m := by
  induction m with
  | nil => simp [StdMap.find] at he
  | cons e0 rest ih =>
    unfold StdMap.find at he
    unfold StdMap.subscriptAssign
    by_cases h1 : key < e0.1
    · simp [h1] at he
    · by_cases h2 : e0.1 < key
      · simp only [h1, h2, if_true, if_false] at he
        simp only [h1, h2, if_true, if_false]
        simp only [StdMap.keys, List.map_cons] at ih ⊢
        rw [ih he]
      · simp [h1, h2, StdMap.keys]

section AbsenceAndCollision

open KeyedFactory Scenario

variable {K A : Type} [LinearOrder K]

/-- C2 (amended): after any sequence of `registerProducer` calls on a fresh factory, `createInstance`
of a key that no producer of the sequence has returns `nullptr` and leaves the free
store alone (the function is total: there is no fault); a fresh factory returns
`nullptr` for every key; conversely, when the registered producers are `KeyedProducer`
objects, a `nullptr` result means that no producer of the sequence has the key. -/
theorem createInstance_unknown_key (ps : List (KeyedProducerBase K A)) (k : K) (h : Heap A) :
    ((∀ P ∈ ps, P.getKey ≠ k) →
      (KeyedFactory.new.registerAll ps).createInstance k h = (none, h)) ∧
    (KeyedFactory.new : KeyedFactory K A).createInstance k h = (none, h) ∧
    ((∀ P ∈ ps, ∃ addr T, P = KeyedProducer addr T) →
      ((KeyedFactory.new.registerAll ps).createInstance k h).1 = none →
      ∀ P ∈ ps, P.getKey ≠ k) := by
  have hfind := find_registerAll (KeyedFactory.new : KeyedFactory K A) ps k
  refine ⟨?_, rfl, ?_⟩
  · intro hne
    rw [(lastProducerWithKey_eq_none_iff k ps).mpr hne] at hfind
    exact createInstance_of_find_none _ _ _ hfind
  · intro hkp hnull
    cases hl : lastProducerWithKey k ps with
    | none => exact (lastProducerWithKey_eq_none_iff k ps).mp hl
    | some P =>
      rw [hl] at hfind
      rw [createInstance_of_find_some _ _ _ hfind] at hnull
      obtain ⟨addr, T, hPT⟩ := hkp P (lastProducerWithKey_some k ps P hl).1
      subst hPT
      simp [KeyedProducer, KeyedProducer.createInstance] at hnull

/-- Witness for C2: `Alpha` and `Beta` registered, `"gamma"` queried. -/
theorem createInstance_unknown_key_witness :
    (∀ P ∈ [KeyedProducer 0 Alpha, KeyedProducer 1 Beta], P.getKey ≠ "gamma") ∧
    (∀ P ∈ [KeyedProducer 0 Alpha, KeyedProducer 1 Beta],
      ∃ addr T, P = KeyedProducer addr T) ∧
    (KeyedFactory.new.registerAll
      [KeyedProducer 0 Alpha, KeyedProducer 1 Beta]).createInstance "gamma" emptyHeap
      = (none, emptyHeap) ∧
    ((KeyedFactory.new.registerAll
      [KeyedProducer 0 Alpha, KeyedProducer 1 Beta]).createInstance "gamma" emptyHeap).1
      = none ∧
    (∀ P ∈ [KeyedProducer 0 Alpha, KeyedProducer 1 Beta], P.getKey ≠ "gamma") := by
  have hne : ∀ P ∈ [KeyedProducer 0 Alpha, KeyedProducer 1 Beta], P.getKey ≠ "gamma" := by
    simp [KeyedProducer, KeyedProducer.getKey, Alpha, Beta]
  have hkp : ∀ P ∈ [KeyedProducer 0 Alpha, KeyedProducer 1 Beta],
      ∃ addr T, P = KeyedProducer addr T := by
    intro P hP
    rcases List.mem_cons.mp hP with rfl | hP
    · exact ⟨0, Alpha, rfl⟩
    · rcases List.mem_cons.mp hP with rfl | hP
      · exact ⟨1, Beta, rfl⟩
      · simp at hP
  have hthm := createInstance_unknown_key
    [KeyedProducer 0 Alpha, KeyedProducer 1 Beta] "gamma" emptyHeap
  have hres := hthm.1 hne
  exact ⟨hne, hkp, hres, by rw [hres], hthm.2.2 hkp (by rw [hres])⟩

/-- C3: after any sequence of `registerProducer` calls on a fresh factory, for a key `k`
that some producer of the sequence has, `createInstance(k)` returns what the last
producer of the sequence with key `k` builds. A `registerProducer` call whose key is
already in the map is an ordinary call: afterwards the map holds the new producer
under that key, and the set of keys is the one before (the entry is replaced, no
second entry is added). -/
theorem createInstance_last_write_wins (ps : List (KeyedProducerBase K A)) (k : K)
    (h : Heap A) (hk : ∃ Q ∈ ps, Q.getKey = k)
    (F : KeyedFactory K A) (R : KeyedProducerBase K A) :
    (∃ pre post P, ps = pre ++ P :: post ∧ P.getKey = k ∧ (∀ Q ∈ post, Q.getKey ≠ k) ∧
      lastProducerWithKey k ps = some P ∧
      (KeyedFactory.new.registerAll ps).createInstance k h = P.createInstance h) ∧
    (∀ e, StdMap.find R.getKey F.producers = some e →
      StdMap.find R.getKey (F.registerProducer R).producers = some (R.getKey, R) ∧
      (F.registerProducer R).registeredKeys = F.registeredKeys) := by
  constructor
  · obtain ⟨pre, post, P, hsplit, hP, hpost⟩ := exists_last_with_key k ps hk
    have hl := lastProducerWithKey_append_of_forall_ne k pre post P hP hpost
    have hfind := find_registerAll (KeyedFactory.new : KeyedFactory K A) ps k
    rw [hsplit, hl] at hfind
    refine ⟨pre, post, P, hsplit, hP, hpost, hsplit ▸ hl, ?_⟩
    rw [hsplit]
    exact createInstance_of_find_some _ _ _ hfind
  · intro e he
    exact ⟨find_registerProducer_self F R,
      StdMap.keys_subscriptAssign_of_find_some _ _ _ he⟩

end AbsenceAndCollision

section DistinctKeys

open KeyedFactory Scenario

variable {K A : Type} [LinearOrder K]

/-- Witness for C3: `Gamma1` and then `Gamma2` registered under `"gamma"`; the query
yields a `Gamma2`, and the second registration replaced the entry of the first. -/
theorem createInstance_last_write_wins_witness :
    (∃ Q ∈ [KeyedProducer 0 Gamma1, KeyedProducer 1 Gamma2], Q.getKey = "gamma") ∧
    (KeyedFactory.new.registerAll
      [KeyedProducer 0 Gamma1, KeyedProducer 1 Gamma2]).createInstance "gamma" emptyHeap
      = (some 0, ⟨[⟨"Gamma2", 0⟩]⟩) ∧
    StdMap.find "gamma" (KeyedFactory.new.registerProducer (KeyedProducer 0 Gamma1)).producers
      = some ("gamma", KeyedProducer 0 Gamma1) ∧
    StdMap.find "gamma" ((KeyedFactory.new.registerProducer
      (KeyedProducer 0 Gamma1)).registerProducer (KeyedProducer 1 Gamma2)).producers
      = some ("gamma", KeyedProducer 1 Gamma2) ∧
    ((KeyedFactory.new.registerProducer
      (KeyedProducer 0 Gamma1)).registerProducer (KeyedProducer 1 Gamma2)).registeredKeys
      = (KeyedFactory.new.registerProducer (KeyedProducer 0 Gamma1)).registeredKeys := by
  have hk : ∃ Q ∈ [KeyedProducer 0 Gamma1, KeyedProducer 1 Gamma2], Q.getKey = "gamma" :=
    ⟨KeyedProducer 0 Gamma1, List.mem_cons_self _ _, rfl⟩
  have hold : StdMap.find "gamma"
      (KeyedFactory.new.registerProducer (KeyedProducer 0 Gamma1)).producers
      = some ("gamma", KeyedProducer 0 Gamma1) :=
    find_registerProducer_self KeyedFactory.new (KeyedProducer 0 Gamma1)
  have hthm := createInstance_last_write_wins
    [KeyedProducer 0 Gamma1, KeyedProducer 1 Gamma2] "gamma" emptyHeap hk
    (KeyedFactory.new.registerProducer (KeyedProducer 0 Gamma1)) (KeyedProducer 1 Gamma2)
  obtain ⟨⟨pre, post, P, -, -, -, hlast, hres⟩, hrep⟩ := hthm
  have hl : lastProducerWithKey "gamma" [KeyedProducer 0 Gamma1, KeyedProducer 1 Gamma2]
      = some (KeyedProducer 1 Gamma2) := by
    simp [lastProducerWithKey, KeyedProducer, KeyedProducer.getKey, Gamma1, Gamma2]
  have hP : P = KeyedProducer 1 Gamma2 := by
    rw [hl] at hlast
    exact (Option.some.inj hlast).symm
  subst hP
  exact ⟨hk, hres, hold, (hrep _ hold).1, (hrep _ hold).2⟩

theorem createInstance_of_nodup_keys (ps : List (KeyedProducerBase K A))
    (hnd : (ps.map KeyedProducerBase.getKey).Nodup) (h : Heap A)
    (P : KeyedProducerBase K A) (hP : P ∈ ps) :
    (KeyedFactory.new.registerAll ps).createInstance P.getKey h = P.createInstance h := by
  obtain ⟨pre, post, hsplit⟩ := List.append_of_mem hP
  subst hsplit
  have hpost : ∀ Q ∈ post, Q.getKey ≠ P.getKey := by
    intro Q hQ hQk
    rw [List.map_append, List.map_cons] at hnd
    have h2 := (List.nodup_append.mp hnd).2.1
    have h3 := (List.nodup_cons.mp h2).1
    exact h3 (hQk ▸ List.mem_map_of_mem _ hQ)
  have hfind := find_registerAll (KeyedFactory.new : KeyedFactory K A)
    (pre ++ P :: post) P.getKey
  rw [lastProducerWithKey_append_of_forall_ne _ pre post P rfl hpost] at hfind
  exact createInstance_of_find_some _ _ _ hfind

theorem createInstance_of_no_key (ps : List (KeyedProducerBase K A)) (k : K) (h : Heap A)
    (hne : ∀ P ∈ ps, P.getKey ≠ k) :
    (KeyedFactory.new.registerAll ps).createInstance k h = (none, h) := by
  have hfind := find_registerAll (KeyedFactory.new : KeyedFactory K A) ps k
  rw [(lastProducerWithKey_eq_none_iff k ps).mpr hne] at hfind
  exact createInstance_of_find_none _ _ _ hfind

/-- C4: when the producers registered into a fresh factory have pairwise distinct keys,
`createInstance(k)` returns, for the key `k` of a registered producer, what that producer
builds (it is the only producer with that key), and `nullptr` for a key of no registered
producer; the order of the registrations does not matter: any reordering of the
sequence answers every query alike. -/
theorem createInstance_distinct_keys (ps : List (KeyedProducerBase K A))
    (hnd : (ps.map KeyedProducerBase.getKey).Nodup) (h : Heap A) :
    (∀ P ∈ ps, (KeyedFactory.new.registerAll ps).createInstance P.getKey h
        = P.createInstance h ∧ ∀ Q ∈ ps, Q.getKey = P.getKey → Q = P) ∧
    (∀ k, (∀ P ∈ ps, P.getKey ≠ k) →
      (KeyedFactory.new.registerAll ps).createInstance k h = (none, h)) ∧
    (∀ qs, qs.Perm ps → ∀ k, (KeyedFactory.new.registerAll qs).createInstance k h
        = (KeyedFactory.new.registerAll ps).createInstance k h) := by
  refine ⟨fun P hP => ⟨createInstance_of_nodup_keys ps hnd h P hP, ?_⟩,
    fun k hne => createInstance_of_no_key ps k h hne, ?_⟩
  · intro Q hQ hQP
    exact List.inj_on_of_nodup_map hnd hQ hP hQP
  · intro qs hperm k
    have hndq : (qs.map KeyedProducerBase.getKey).Nodup :=
      (hperm.map _).nodup_iff.mpr hnd
    by_cases hk : ∃ P ∈ ps, P.getKey = k
    · obtain ⟨P, hP, rfl⟩ := hk
      rw [createInstance_of_nodup_keys ps hnd h P hP,
        createInstance_of_nodup_keys qs hndq h P (hperm.mem_iff.mpr hP)]
    · have hne : ∀ P ∈ ps, P.getKey ≠ k := fun P hP hPk => hk ⟨P, hP, hPk⟩
      rw [createInstance_of_no_key ps k h hne,
        createInstance_of_no_key qs k h (fun P hP => hne P (hperm.mem_iff.mp hP))]

/-- Witness for C4: `Alpha` under `"alpha"` and `Beta` under `"beta"`; `"alpha"` yields an
`Alpha`, `"beta"` a `Beta`, `"gamma"` nothing. -/
theorem createInstance_distinct_keys_witness :
    ([KeyedProducer 0 Alpha, KeyedProducer 1 Beta].map KeyedProducerBase.getKey).Nodup ∧
    (KeyedFactory.new.registerAll
      [KeyedProducer 0 Alpha, KeyedProducer 1 Beta]).createInstance "alpha" emptyHeap
      = (some 0, ⟨[⟨"Alpha", 0⟩]⟩) ∧
    (KeyedFactory.new.registerAll
      [KeyedProducer 0 Alpha, KeyedProducer 1 Beta]).createInstance "beta" emptyHeap
      = (some 0, ⟨[⟨"Beta", 0⟩]⟩) ∧
    (KeyedFactory.new.registerAll
      [KeyedProducer 0 Alpha, KeyedProducer 1 Beta]).createInstance "gamma" emptyHeap
      = (none, emptyHeap) ∧
    (KeyedFactory.new.registerAll
      [KeyedProducer 1 Beta, KeyedProducer 0 Alpha]).createInstance "alpha" emptyHeap
      = (some 0, ⟨[⟨"Alpha", 0⟩]⟩) := by
  have hnd : ([KeyedProducer 0 Alpha, KeyedProducer 1 Beta].map
      KeyedProducerBase.getKey).Nodup := by
    simp [KeyedProducer, KeyedProducer.getKey, Alpha, Beta]
  have hthm := createInstance_distinct_keys
    [KeyedProducer 0 Alpha, KeyedProducer 1 Beta] hnd emptyHeap
  have ha := (hthm.1 (KeyedProducer 0 Alpha) (List.mem_cons_self _ _)).1
  have hb := (hthm.1 (KeyedProducer 1 Beta)
    (List.mem_cons_of_mem _ (List.mem_cons_self _ _))).1
  have hg := hthm.2.1 "gamma" (by simp [KeyedProducer, KeyedProducer.getKey, Alpha, Beta])
  have hp := hthm.2.2 [KeyedProducer 1 Beta, KeyedProducer 0 Alpha]
    (List.Perm.swap _ _ _) "alpha"
  exact ⟨hnd, ha, hb, hg, hp.trans ha⟩

end DistinctKeys

/-! ## Calls through pointers: isolation and reads -/

section Isolation

open KeyedFactory Scenario

variable {K A : Type} [LinearOrder K]

theorem Memory.registerProducer_eq (m : Memory K A) (f : Nat) (F : KeyedFactory K A)
    (hF : m.factories[f]? = some F) (P : KeyedProducerBase K A) :
    m.registerProducer f P = some ⟨m.factories.set f (F.registerProducer P), m.heap⟩ := by
  simp [Memory.registerProducer, hF]

theorem KeyedProducer.construct_eq (m : Memory K A) (f : Nat) (F : KeyedFactory K A)
    (hF : m.factories[f]? = some F) (addr : Nat) (T : ProductClass K A) :
    KeyedProducer.construct addr T f m = some (KeyedProducer addr T,
      ⟨m.factories.set f (F.registerProducer (KeyedProducer addr T)), m.heap⟩) := by
  simp [KeyedProducer.construct, KeyedProducerBase.registerTo, Memory.registerProducer, hF]

theorem Memory.createInstance_congr (m1 m2 : Memory K A) (f : Nat) (k : K)
    (hf : m1.factories[f]? = m2.factories[f]?) (hh : m1.heap = m2.heap) :
    (m1.createInstance f k).map (fun r => (r.1, r.2.heap))
      = (m2.createInstance f k).map (fun r => (r.1, r.2.heap)) := by
  unfold Memory.createInstance
  rw [hf, hh]
  cases m2.factories[f]? <;> rfl

/-- C5: let `f1` and `f2` point to two distinct factory objects. Registering a producer
into `*f1`, be it by `registerProducer`, by `registerTo` or by constructing a
`KeyedProducer` with `f1`, is a defined call that leaves the object `*f2` as it was, so
that `f2->createInstance(k)` returns the same pointer and the same free store before and
after, for every key `k`; and when `*f2` has no entry for `T::Key`, the product `T` just
registered into `*f1` cannot be built through `f2`: the call returns `nullptr`. -/
theorem registration_isolated_across_factories (m : Memory K A) (f1 f2 : Nat)
    (F1 : KeyedFactory K A) (hF1 : m.factories[f1]? = some F1) (hne : f1 ≠ f2)
    (P : KeyedProducerBase K A) (addr : Nat) (T : ProductClass K A) (k : K) :
    (∃ m1, m.registerProducer f1 P = some m1 ∧ P.registerTo f1 m = some m1 ∧
      m1.factories[f2]? = m.factories[f2]? ∧
      (m1.createInstance f2 k).map (fun r => (r.1, r.2.heap))
        = (m.createInstance f2 k).map (fun r => (r.1, r.2.heap))) ∧
    (∃ m2, KeyedProducer.construct addr T f1 m = some (KeyedProducer addr T, m2) ∧
      m2.factories[f2]? = m.factories[f2]? ∧
      (m2.createInstance f2 k).map (fun r => (r.1, r.2.heap))
        = (m.createInstance f2 k).map (fun r => (r.1, r.2.heap)) ∧
      (∀ F2, m.factories[f2]? = some F2 → StdMap.find T.Key F2.producers = none →
        (m2.createInstance f2 T.Key).map (fun r => (r.1, r.2.heap))
          = some (none, m.heap))) := by
  constructor
  · refine ⟨_, Memory.registerProducer_eq m f1 F1 hF1 P,
      Memory.registerProducer_eq m f1 F1 hF1 P, ?_, ?_⟩
    · simp [List.getElem?_set_ne hne]
    · exact Memory.createInstance_congr _ _ _ _ (by simp [List.getElem?_set_ne hne]) rfl
  · refine ⟨_, KeyedProducer.construct_eq m f1 F1 hF1 addr T, ?_, ?_, ?_⟩
    · simp [List.getElem?_set_ne hne]
    · exact Memory.createInstance_congr _ _ _ _ (by simp [List.getElem?_set_ne hne]) rfl
    · intro F2 hF2 hnone
      have hF2b : (m.factories.set f1 (F1.registerProducer (KeyedProducer addr T)))[f2]?
          = some F2 := by
        rw [List.getElem?_set_ne hne]; exact hF2
      simp [Memory.createInstance, hF2b, createInstance_of_find_none F2 T.Key m.heap hnone]

/-- Witness for C5: two factories defined by `CREATE_FACTORY`, `Alpha` constructed with a
pointer to the first; the second still answers `"alpha"` with `nullptr`, the first
builds an `Alpha`. -/
theorem registration_isolated_across_factories_witness :
    (⟨[KeyedFactory.new, KeyedFactory.new], emptyHeap⟩ : Memory String Obj).factories[0]?
      = some KeyedFactory.new ∧
    (0 : Nat) ≠ 1 ∧
    (∃ m2, KeyedProducer.construct 0 Alpha 0 ⟨[KeyedFactory.new, KeyedFactory.new], emptyHeap⟩
        = some (KeyedProducer 0 Alpha, m2) ∧
      (m2.createInstance 1 "alpha").map (fun r => (r.1, r.2.heap)) = some (none, emptyHeap) ∧
      (m2.createInstance 0 "alpha").map (fun r => (r.1, r.2.heap))
        = some (some 0, ⟨[⟨"Alpha", 0⟩]⟩)) := by
  have hthm := registration_isolated_across_factories
    (⟨[KeyedFactory.new, KeyedFactory.new], emptyHeap⟩ : Memory String Obj) 0 1
    KeyedFactory.new rfl (by decide) (KeyedProducer 0 Alpha) 0 Alpha "alpha"
  obtain ⟨-, m2, hm2, -, -, habs⟩ := hthm
  refine ⟨rfl, by decide, m2, hm2, habs KeyedFactory.new rfl rfl, ?_⟩
  have hm2b := KeyedProducer.construct_eq
    (⟨[KeyedFactory.new, KeyedFactory.new], emptyHeap⟩ : Memory String Obj) 0
    KeyedFactory.new rfl 0 Alpha
  rw [hm2b] at hm2
  have hm2c := (Prod.mk.inj (Option.some.inj hm2)).2
  subst hm2c
  have hfind := find_registerProducer_self (KeyedFactory.new : KeyedFactory String Obj)
    (KeyedProducer 0 Alpha)
  simp only [Memory.createInstance, List.set_cons_zero, List.getElem?_cons_zero,
    Option.map_some']
  have hres := createInstance_of_find_some _ "alpha" emptyHeap hfind
  rw [hres]
  rfl

end Isolation

/-! ## Pure reads and the mapping invariant -/

namespace StdMap

variable {K V : Type} [LinearOrder K]

theorem mem_subscriptAssign (key : K) (v : V) (m : List (K × V)) (e : K × V)
    (he : e ∈ subscriptAssign key v m) : e = (key, v) ∨ e ∈ m := by
  induction m with
  | nil => simpa [subscriptAssign] using he
  | cons e0 rest ih =>
    unfold subscriptAssign at he
    by_cases h1 : key < e0.1
    · rw [if_pos h1] at he
      rcases List.mem_cons.mp he with h | h
      · exact Or.inl h
      · exact Or.inr h
    · rw [if_neg h1] at he
      by_cases h2 : e0.1 < key
      · rw [if_pos h2] at he
        rcases List.mem_cons.mp he with h | h
        · exact Or.inr (h ▸ List.mem_cons_self _ _)
        · rcases ih h with h3 | h3
          · exact Or.inl h3
          · exact Or.inr (List.mem_cons_of_mem _ h3)
      · rw [if_neg h2] at he
        have hk : e0.1 = key := le_antisymm (not_lt.mp h1) (not_lt.mp h2)
        rcases List.mem_cons.mp he with h | h
        · exact Or.inl (by rw [h, hk])
        · exact Or.inr (List.mem_cons_of_mem _ h)

theorem mem_keys_subscriptAssign (key : K) (v : V) (m : List (K × V)) (x : K)
    (hx : x ∈ keys (subscriptAssign key v m)) : x = key ∨ x ∈ keys m := by
  obtain ⟨e, he, rfl⟩ := List.mem_map.mp hx
  rcases mem_subscriptAssign key v m e he with h | h
  · exact Or.inl (by rw [h])
  · exact Or.inr (List.mem_map_of_mem _ h)

theorem ordered_nil : Ordered ([] : List (K × V)) :=
  List.Pairwise.nil

theorem ordered_subscriptAssign (key : K) (v : V) (m : List (K × V)) (hm : Ordered m) :
    Ordered (subscriptAssign key v m) := by
  induction m with
  | nil => simp [subscriptAssign, Ordered, keys]
  | cons e0 rest ih =>
    have hm2 : (∀ x ∈ keys rest, e0.1 < x) ∧ Ordered rest := by
      simpa [Ordered, keys] using hm
    unfold subscriptAssign
    by_cases h1 : key < e0.1
    · rw [if_pos h1]
      refine List.pairwise_cons.mpr ⟨?_, hm⟩
      intro x hx
      rcases List.mem_cons.mp hx with h | h
      · rw [h]; exact h1
      · exact lt_trans h1 (hm2.1 x h)
    · rw [if_neg h1]
      by_cases h2 : e0.1 < key
      · rw [if_pos h2]
        refine List.pairwise_cons.mpr ⟨?_, ih hm2.2⟩
        intro x hx
        rcases mem_keys_subscriptAssign key v rest x hx with h | h
        · rw [h]; exact h2
        · exact hm2.1 x h
      · rw [if_neg h2]
        exact hm

theorem nodup_keys_of_ordered (m : List (K × V)) (hm : Ordered m) : (keys m).Nodup :=
  List.Pairwise.imp (fun h => ne_of_lt h) hm

theorem eq_of_mem_of_ordered (m : List (K × V)) (hm : Ordered m) (k : K) (v w : V)
    (hv : (k, v) ∈ m) (hw : (k, w) ∈ m) : v = w := by
  have h := List.inj_on_of_nodup_map (nodup_keys_of_ordered m hm) hv hw rfl
  exact (Prod.mk.inj h).2

end StdMap

namespace KeyedFactory

variable {K A : Type} [LinearOrder K]

theorem invariant_new : (KeyedFactory.new : KeyedFactory K A).Invariant :=
  ⟨StdMap.ordered_nil, fun e he => by simp [KeyedFactory.new] at he⟩

theorem invariant_registerProducer (F : KeyedFactory K A) (P : KeyedProducerBase K A)
    (hF : F.Invariant) : (F.registerProducer P).Invariant := by
  refine ⟨StdMap.ordered_subscriptAssign _ _ _ hF.1, ?_⟩
  intro e he
  rcases StdMap.mem_subscriptAssign _ _ _ e he with h | h
  · rw [h]
  · exact hF.2 e h

theorem invariant_registerAll (F : KeyedFactory K A) (ps : List (KeyedProducerBase K A))
    (hF : F.Invariant) : (F.registerAll ps).Invariant := by
  induction ps generalizing F with
  | nil => exact hF
  | cons P ps ih => exact ih _ (invariant_registerProducer F P hF)

end KeyedFactory

section ReadsAndInvariant

open KeyedFactory Scenario

variable {K A : Type} [LinearOrder K]

theorem Memory.createInstance_eq (m : Memory K A) (f : Nat) (F : KeyedFactory K A)
    (hF : m.factories[f]? = some F) (k : K) :
    m.createInstance f k
      = some ((F.createInstance k m.heap).1, ⟨m.factories, (F.createInstance k m.heap).2⟩) := by
  simp [Memory.createInstance, hF]

theorem Memory.factories_createInstance (m : Memory K A) (f : Nat) (k : K)
    (r : SharedPtr × Memory K A) (hr : m.createInstance f k = some r) :
    r.2.factories = m.factories := by
  unfold Memory.createInstance at hr
  cases hF : m.factories[f]? with
  | none => simp [hF] at hr
  | some F =>
    simp only [hF, Option.some.injEq] at hr
    rw [← hr]

/-- C6: `f->createInstance(key)` on a factory object `*f` is a defined call that leaves
every factory object, `*f` included, exactly as it was, whether or not the key is
registered; so the registered keys are the same afterwards, and when the key is not
registered the call returns `nullptr`, changes nothing at all, and the same call made
again returns `nullptr` again. -/
theorem createInstance_is_pure_read (m : Memory K A) (f : Nat) (F : KeyedFactory K A)
    (hF : m.factories[f]? = some F) (k : K) :
    ∃ p m1, m.createInstance f k = some (p, m1) ∧
      m1.factories = m.factories ∧
      m1.factories[f]? = some F ∧
      m1.factories.map KeyedFactory.registeredKeys
        = m.factories.map KeyedFactory.registeredKeys ∧
      (StdMap.find k F.producers = none →
        p = none ∧ m1 = m ∧ m1.createInstance f k = some (none, m1)) := by
  refine ⟨_, _, Memory.createInstance_eq m f F hF k, rfl, hF, rfl, ?_⟩
  intro hnone
  have hres := createInstance_of_find_none F k m.heap hnone
  refine ⟨by rw [hres], by rw [hres], ?_⟩
  rw [hres]
  exact (Memory.createInstance_eq m f F hF k).trans (by rw [hres])

/-- Witness for C6: a factory holding `Alpha` only is asked for `"gamma"`. -/
theorem createInstance_is_pure_read_witness :
    (⟨[KeyedFactory.new.registerProducer (KeyedProducer 0 Alpha)], emptyHeap⟩ :
      Memory String Obj).factories[0]?
      = some (KeyedFactory.new.registerProducer (KeyedProducer 0 Alpha)) ∧
    StdMap.find "gamma" (KeyedFactory.new.registerProducer (KeyedProducer 0 Alpha)).producers
      = none ∧
    Memory.createInstance
      ⟨[KeyedFactory.new.registerProducer (KeyedProducer 0 Alpha)], emptyHeap⟩ 0 "gamma"
      = some (none, ⟨[KeyedFactory.new.registerProducer (KeyedProducer 0 Alpha)], emptyHeap⟩) := by
  have hnone : StdMap.find "gamma"
      (KeyedFactory.new.registerProducer (KeyedProducer 0 Alpha)).producers = none := by
    rw [find_registerProducer_of_ne _ _
      (by simp [KeyedProducer, KeyedProducer.getKey, Alpha])]
    rfl
  obtain ⟨p, m1, hcall, -, -, -, himp⟩ := createInstance_is_pure_read
    (⟨[KeyedFactory.new.registerProducer (KeyedProducer 0 Alpha)], emptyHeap⟩ :
      Memory String Obj) 0 _ rfl "gamma"
  obtain ⟨hp, hm1, -⟩ := himp hnone
  subst hp
  subst hm1
  exact ⟨rfl, hnone, hcall⟩

/-- C7: the mapping invariant (keys strictly ascending, hence one entry per key, and each
entry holding a producer whose `getKey()` is the entry's key) holds for a fresh factory,
is preserved by `registerProducer` and by `createInstance`, and so holds in every state
reached from a fresh factory by `registerProducer` calls; there no key occurs twice, a
key is associated with one producer only, and every entry `(k, p)` has `p.getKey() = k`. -/
theorem mapping_invariant (ps : List (KeyedProducerBase K A)) (F : KeyedFactory K A)
    (P : KeyedProducerBase K A) (m : Memory K A) (f : Nat) (k : K) :
    (KeyedFactory.new : KeyedFactory K A).Invariant ∧
    (F.Invariant → (F.registerProducer P).Invariant) ∧
    ((∀ G ∈ m.factories, G.Invariant) → ∀ r, m.createInstance f k = some r →
      ∀ G ∈ r.2.factories, G.Invariant) ∧
    ((∀ G ∈ m.factories, G.Invariant) → ∀ m1, m.registerProducer f P = some m1 →
      ∀ G ∈ m1.factories, G.Invariant) ∧
    (KeyedFactory.new.registerAll ps).Invariant ∧
    (KeyedFactory.new.registerAll ps).registeredKeys.Nodup ∧
    (∀ e ∈ (KeyedFactory.new.registerAll ps).producers, e.2.getKey = e.1) ∧
    (∀ k1 P1 P2, (k1, P1) ∈ (KeyedFactory.new.registerAll ps).producers →
      (k1, P2) ∈ (KeyedFactory.new.registerAll ps).producers → P1 = P2) := by
  have hall := invariant_registerAll (KeyedFactory.new : KeyedFactory K A) ps invariant_new
  refine ⟨invariant_new, invariant_registerProducer F P, ?_, ?_, hall,
    StdMap.nodup_keys_of_ordered _ hall.1, hall.2,
    fun k1 P1 P2 h1 h2 => StdMap.eq_of_mem_of_ordered _ hall.1 k1 P1 P2 h1 h2⟩
  · intro hm r hr G hG
    rw [Memory.factories_createInstance m f k r hr] at hG
    exact hm G hG
  · intro hm m1 hm1 G hG
    unfold Memory.registerProducer at hm1
    cases hF : m.factories[f]? with
    | none => simp [hF] at hm1
    | some F1 =>
      simp only [hF, Option.some.injEq] at hm1
      rw [← hm1] at hG
      rcases List.mem_or_eq_of_mem_set hG with h | h
      · exact hm G h
      · rw [h]
        exact invariant_registerProducer F1 P (hm F1 (List.getElem?_mem hF))

end ReadsAndInvariant

section ConstructionAndInstances

open KeyedFactory Scenario

variable {K A : Type} [LinearOrder K]

/-- Witness for C7: the factory holding `Gamma1` receives `Gamma2` under the same key, and
the sequence `Gamma1`, `Gamma2`, `Alpha` is registered into a fresh factory. -/
theorem mapping_invariant_witness :
    (KeyedFactory.new.registerProducer (KeyedProducer 0 Gamma1)).Invariant ∧
    ((KeyedFactory.new.registerProducer (KeyedProducer 0 Gamma1)).registerProducer
      (KeyedProducer 1 Gamma2)).Invariant ∧
    (∀ G ∈ (⟨[KeyedFactory.new.registerProducer (KeyedProducer 0 Gamma1)], emptyHeap⟩ :
      Memory String Obj).factories, G.Invariant) ∧
    (∃ r, Memory.createInstance
        ⟨[KeyedFactory.new.registerProducer (KeyedProducer 0 Gamma1)], emptyHeap⟩ 0 "gamma"
        = some r ∧ ∀ G ∈ r.2.factories, G.Invariant) ∧
    (∃ m1, Memory.registerProducer
        ⟨[KeyedFactory.new.registerProducer (KeyedProducer 0 Gamma1)], emptyHeap⟩ 0
        (KeyedProducer 1 Gamma2) = some m1 ∧ ∀ G ∈ m1.factories, G.Invariant) ∧
    (KeyedFactory.new.registerAll [KeyedProducer 0 Gamma1, KeyedProducer 1 Gamma2,
      KeyedProducer 2 Alpha]).registeredKeys.Nodup := by
  have hF : (KeyedFactory.new.registerProducer (KeyedProducer 0 Gamma1)).Invariant :=
    invariant_registerProducer _ _ invariant_new
  have hm : ∀ G ∈ (⟨[KeyedFactory.new.registerProducer (KeyedProducer 0 Gamma1)],
      emptyHeap⟩ : Memory String Obj).factories, G.Invariant := by
    intro G hG
    rw [List.mem_singleton.mp hG]
    exact hF
  have hthm := mapping_invariant
    [KeyedProducer 0 Gamma1, KeyedProducer 1 Gamma2, KeyedProducer 2 Alpha]
    (KeyedFactory.new.registerProducer (KeyedProducer 0 Gamma1)) (KeyedProducer 1 Gamma2)
    (⟨[KeyedFactory.new.registerProducer (KeyedProducer 0 Gamma1)], emptyHeap⟩ :
      Memory String Obj) 0 "gamma"
  obtain ⟨-, hreg, hcreate, hregm, -, hnd, -, -⟩ := hthm
  have hcall := Memory.createInstance_eq
    (⟨[KeyedFactory.new.registerProducer (KeyedProducer 0 Gamma1)], emptyHeap⟩ :
      Memory String Obj) 0 _ rfl "gamma"
  have hregcall := Memory.registerProducer_eq
    (⟨[KeyedFactory.new.registerProducer (KeyedProducer 0 Gamma1)], emptyHeap⟩ :
      Memory String Obj) 0 _ rfl (KeyedProducer 1 Gamma2)
  exact ⟨hF, hreg hF, hm, ⟨_, hcall, hcreate hm _ hcall⟩,
    ⟨_, hregcall, hregm hm _ hregcall⟩, hnd⟩

/-- C8: constructing a `KeyedProducer<K, A, T>` with a pointer `f` to a factory is the call
`f->registerProducer` of the constructed producer, whose key is `T::Key`, and nothing
else; `registerTo(f)` is `f->registerProducer(this)`; `CREATE_PRODUCER` is that
construction for the class with the given key. With `f` pointing to a factory object the
construction is defined, the object afterwards is the old one with the producer
registered, and right away `f->createInstance(T::Key)` returns a non-null pointer to a
freshly allocated default-constructed `T`. -/
theorem construction_is_registration (m : Memory K A) (f : Nat) (F : KeyedFactory K A)
    (hF : m.factories[f]? = some F) (addr : Nat) (T : ProductClass K A)
    (P : KeyedProducerBase K A) (ctorT : A) (KEY : K) :
    KeyedProducer.construct addr T f m
      = (m.registerProducer f (KeyedProducer addr T)).map
          (fun m1 => (KeyedProducer addr T, m1)) ∧
    (KeyedProducer addr T).getKey = T.Key ∧
    P.registerTo f m = m.registerProducer f P ∧
    m.registerProducer f P = some ⟨m.factories.set f (F.registerProducer P), m.heap⟩ ∧
    CREATE_PRODUCER f addr ctorT KEY m = KeyedProducer.construct addr ⟨KEY, ctorT⟩ f m ∧
    (∃ m1, KeyedProducer.construct addr T f m = some (KeyedProducer addr T, m1) ∧
      m1.factories[f]? = some (F.registerProducer (KeyedProducer addr T)) ∧
      m1.heap = m.heap ∧
      m1.createInstance f T.Key
        = some (some m.heap.cells.length, ⟨m1.factories, ⟨m.heap.cells ++ [T.ctor]⟩⟩) ∧
      (Heap.mk (m.heap.cells ++ [T.ctor])).read m.heap.cells.length = some T.ctor) := by
  have hlen : f < m.factories.length := (List.getElem?_eq_some.mp hF).1
  refine ⟨?_, rfl, rfl, Memory.registerProducer_eq m f F hF P, rfl, ?_⟩
  · unfold KeyedProducer.construct KeyedProducerBase.registerTo
    cases m.registerProducer f (KeyedProducer addr T) <;> rfl
  · refine ⟨_, KeyedProducer.construct_eq m f F hF addr T, List.getElem?_set_self hlen, rfl,
      ?_, ?_⟩
    · rw [Memory.createInstance_eq _ f _ (List.getElem?_set_self hlen) T.Key]
      have hfind := find_registerProducer_self F (KeyedProducer addr T)
      have hres := createInstance_of_find_some _ T.Key m.heap hfind
      rw [hres]
      rfl
    · simp [Heap.read]

/-- Witness for C8: `CREATE_FACTORY` followed by `CREATE_PRODUCER` for `Alpha`. -/
theorem construction_is_registration_witness :
    (CREATE_FACTORY (⟨[], emptyHeap⟩ : Memory String Obj)).2.factories[0]?
      = some KeyedFactory.new ∧
    (∃ m1, CREATE_PRODUCER 0 7 (⟨"Alpha", 0⟩ : Obj) "alpha"
        (CREATE_FACTORY (⟨[], emptyHeap⟩ : Memory String Obj)).2
        = some (KeyedProducer 7 Alpha, m1) ∧
      m1.createInstance 0 "alpha"
        = some (some 0, ⟨m1.factories, ⟨[⟨"Alpha", 0⟩]⟩⟩)) := by
  have hthm := construction_is_registration
    (CREATE_FACTORY (⟨[], emptyHeap⟩ : Memory String Obj)).2 0 KeyedFactory.new rfl
    7 Alpha (KeyedProducer 7 Alpha) (⟨"Alpha", 0⟩ : Obj) "alpha"
  obtain ⟨-, -, -, -, hmacro, m1, hm1, -, -, hcall, -⟩ := hthm
  exact ⟨rfl, m1, hmacro.trans hm1, hcall⟩

/-- C9: when the entry of key `k` in a factory is a `KeyedProducer` of class `T`, two
successive `createInstance(k)` calls return two different non-null pointers, each to an
object of its own that is a default-constructed `T` (every call runs `new T()`; nothing
is cached), and overwriting the object behind one pointer leaves the object behind the
other as it was. -/
theorem instances_are_independent (F : KeyedFactory K A) (k : K)
    (e : K × KeyedProducerBase K A) (he : StdMap.find k F.producers = some e)
    (addr : Nat) (T : ProductClass K A) (hT : e.2 = KeyedProducer addr T)
    (h : Heap A) (v : A) :
    (F.createInstance k h).1 = some h.cells.length ∧
    (F.createInstance k (F.createInstance k h).2).1 = some (h.cells.length + 1) ∧
    (F.createInstance k h).1 ≠ (F.createInstance k (F.createInstance k h).2).1 ∧
    (F.createInstance k (F.createInstance k h).2).2.read h.cells.length = some T.ctor ∧
    (F.createInstance k (F.createInstance k h).2).2.read (h.cells.length + 1)
      = some T.ctor ∧
    ((F.createInstance k (F.createInstance k h).2).2.write h.cells.length v).read
      h.cells.length = some v ∧
    ((F.createInstance k (F.createInstance k h).2).2.write h.cells.length v).read
      (h.cells.length + 1) = some T.ctor ∧
    ((F.createInstance k (F.createInstance k h).2).2.write (h.cells.length + 1) v).read
      h.cells.length = some T.ctor := by
  have hc : ∀ h1 : Heap A, F.createInstance k h1
      = (some h1.cells.length, ⟨h1.cells ++ [T.ctor]⟩) := by
    intro h1
    rw [createInstance_of_find_some F k h1 he, hT]
    rfl
  rw [hc h, hc]
  simp [Heap.read, Heap.write, List.getElem?_append, List.getElem?_set, List.getElem_append]

/-- Witness for C9: two `createInstance("alpha")` calls on a factory holding `Alpha`. -/
theorem instances_are_independent_witness :
    StdMap.find "alpha" (KeyedFactory.new.registerProducer (KeyedProducer 0 Alpha)).producers
      = some ("alpha", KeyedProducer 0 Alpha) ∧
    ((KeyedFactory.new.registerProducer (KeyedProducer 0 Alpha)).createInstance "alpha"
      emptyHeap).1 = some 0 ∧
    ((KeyedFactory.new.registerProducer (KeyedProducer 0 Alpha)).createInstance "alpha"
      ((KeyedFactory.new.registerProducer (KeyedProducer 0 Alpha)).createInstance "alpha"
        emptyHeap).2).1 = some 1 ∧
    (((KeyedFactory.new.registerProducer (KeyedProducer 0 Alpha)).createInstance "alpha"
      ((KeyedFactory.new.registerProducer (KeyedProducer 0 Alpha)).createInstance "alpha"
        emptyHeap).2).2.write 0 ⟨"Alpha", 5⟩).read 1 = some ⟨"Alpha", 0⟩ := by
  have hfind := find_registerProducer_self (KeyedFactory.new : KeyedFactory String Obj)
    (KeyedProducer 0 Alpha)
  have hthm := instances_are_independent
    (KeyedFactory.new.registerProducer (KeyedProducer 0 Alpha)) "alpha" _ hfind 0 Alpha rfl
    emptyHeap ⟨"Alpha", 5⟩
  exact ⟨hfind, hthm.1, hthm.2.1, hthm.2.2.2.2.2.2.1⟩

end ConstructionAndInstances

/-! ## Algebra of registrations -/

namespace StdMap

variable {K V : Type} [LinearOrder K]

theorem mem_keys_subscriptAssign_of_mem (key : K) (v : V) (m : List (K × V)) (x : K)
    (hx : x ∈ keys m) : x ∈ keys (subscriptAssign key v m) := by
  induction m with
  | nil => simp [keys] at hx
  | cons e0 rest ih =>
    unfold subscriptAssign
    by_cases h1 : key < e0.1
    · rw [if_pos h1]
      exact List.mem_cons_of_mem _ hx
    · rw [if_neg h1]
      by_cases h2 : e0.1 < key
      · rw [if_pos h2]
        simp only [keys, List.map_cons, List.mem_cons] at hx ih ⊢
        rcases hx with h | h
        · exact Or.inl h
        · exact Or.inr (ih h)
      · rw [if_neg h2]
        simpa [keys] using hx

theorem subscriptAssign_idem (key : K) (v : V) (m : List (K × V)) :
    subscriptAssign key v (subscriptAssign key v m) = subscriptAssign key v m := by
  induction m with
  | nil => simp [subscriptAssign]
  | cons e0 rest ih =>
    by_cases h1 : key < e0.1
    · simp [subscriptAssign, h1]
    · by_cases h2 : e0.1 < key
      · simp [subscriptAssign, h1, h2, ih]
      · simp [subscriptAssign, h1, h2]

theorem subscriptAssign_of_find_some (key : K) (m : List (K × V)) (e : K × V)
    (he : find key m = some e) : subscriptAssign key e.2 m = m := by
  induction m with
  | nil => simp [find] at he
  | cons e0 rest ih =>
    unfold find at he
    unfold subscriptAssign
    by_cases h1 : key < e0.1
    · simp [h1] at he
    · by_cases h2 : e0.1 < key
      · simp only [h1, h2, if_true, if_false] at he
        simp only [h1, h2, if_true, if_false]
        rw [ih he]
      · simp only [h1, h2, if_false, Option.some.injEq] at he
        simp only [h1, h2, if_false]
        rw [← he]

theorem subscriptAssign_comm {k1 k2 : K} (hne : k1 ≠ k2) (v1 v2 : V) (m : List (K × V)) :
    subscriptAssign k2 v2 (subscriptAssign k1 v1 m)
      = subscriptAssign k1 v1 (subscriptAssign k2 v2 m) := by
  induction m with
  | nil =>
    rcases lt_or_gt_of_ne hne with h | h
    · simp [subscriptAssign, h, not_lt_of_gt h]
    · simp [subscriptAssign, h, not_lt_of_gt h]
  | cons e0 rest ih =>
    rcases lt_trichotomy k1 e0.1 with a1 | a1 | a1 <;>
    rcases lt_trichotomy k2 e0.1 with a2 | a2 | a2
    · rcases lt_or_gt_of_ne hne with h | h
      · simp [subscriptAssign, a1, a2, h, not_lt_of_gt h]
      · simp [subscriptAssign, a1, a2, h, not_lt_of_gt h]
    · subst a2
      simp [subscriptAssign, a1, not_lt_of_gt a1]
    · have h := lt_trans a1 a2
      simp [subscriptAssign, a1, a2, h, not_lt_of_gt a1, not_lt_of_gt a2, not_lt_of_gt h]
    · subst a1
      simp [subscriptAssign, a2, not_lt_of_gt a2]
    · exact absurd (a1.trans a2.symm) hne
    · subst a1
      simp [subscriptAssign, a2, not_lt_of_gt a2]
    · have h := lt_trans a2 a1
      simp [subscriptAssign, a1, a2, h, not_lt_of_gt a1, not_lt_of_gt a2, not_lt_of_gt h]
    · subst a2
      simp [subscriptAssign, a1, not_lt_of_gt a1]
    · simp [subscriptAssign, a1, a2, not_lt_of_gt a1, not_lt_of_gt a2, ih]

end StdMap

namespace StdMap

variable {K V : Type} [LinearOrder K]

theorem mem_of_find_some (key : K) (m : List (K × V)) (e : K × V)
    (he : find key m = some e) : e ∈ m := by
  induction m with
  | nil => simp [find] at he
  | cons e0 rest ih =>
    unfold find at he
    by_cases h1 : key < e0.1
    · simp [h1] at he
    · by_cases h2 : e0.1 < key
      · simp only [h1, h2, if_true, if_false] at he
        exact List.mem_cons_of_mem _ (ih he)
      · simp only [h1, h2, if_false, Option.some.injEq] at he
        rw [← he]
        exact List.mem_cons_self _ _

end StdMap

namespace KeyedFactory

variable {K A : Type} [LinearOrder K]

theorem find_registerProducer_of_find_some (F : KeyedFactory K A) (P : KeyedProducerBase K A)
    (k : K) (e : K × KeyedProducerBase K A) (hk : StdMap.find k F.producers = some e) :
    ∃ e1, StdMap.find k (F.registerProducer P).producers = some e1 := by
  by_cases hkP : k = P.getKey
  · subst hkP
    exact ⟨_, find_registerProducer_self F P⟩
  · exact ⟨e, (find_registerProducer_of_ne F P hkP).trans hk⟩

theorem find_run_of_find_some (F : KeyedFactory K A) (h : Heap A) (cs : List (FactoryCall K A))
    (k : K) (e : K × KeyedProducerBase K A) (hk : StdMap.find k F.producers = some e) :
    ∃ e1, StdMap.find k (F.run h cs).1.producers = some e1 := by
  induction cs generalizing F h e with
  | nil => exact ⟨e, hk⟩
  | cons c cs ih =>
    cases c with
    | registerProducer P =>
      obtain ⟨e1, he1⟩ := find_registerProducer_of_find_some F P k e hk
      exact ih (F.registerProducer P) h e1 he1
    | createInstance key => exact ih F _ e hk

theorem registeredKeys_run (F : KeyedFactory K A) (h : Heap A) (cs : List (FactoryCall K A))
    (x : K) (hx : x ∈ F.registeredKeys) : x ∈ (F.run h cs).1.registeredKeys := by
  induction cs generalizing F h with
  | nil => exact hx
  | cons c cs ih =>
    cases c with
    | registerProducer P =>
      exact ih (F.registerProducer P) h
        (StdMap.mem_keys_subscriptAssign_of_mem _ _ _ x hx)
    | createInstance key => exact ih F _ hx

theorem forall_producers_run (p : KeyedProducerBase K A → Prop) (F : KeyedFactory K A)
    (h : Heap A) (cs : List (FactoryCall K A)) (hF : ∀ e ∈ F.producers, p e.2)
    (hcs : ∀ P, FactoryCall.registerProducer P ∈ cs → p P) :
    ∀ e ∈ (F.run h cs).1.producers, p e.2 := by
  induction cs generalizing F h with
  | nil => exact hF
  | cons c cs ih =>
    cases c with
    | registerProducer P =>
      refine ih (F.registerProducer P) h ?_ (fun Q hQ => hcs Q (List.mem_cons_of_mem _ hQ))
      intro e he
      rcases StdMap.mem_subscriptAssign _ _ _ e he with h1 | h1
      · rw [h1]
        exact hcs P (List.mem_cons_self _ _)
      · exact hF e h1
    | createInstance key =>
      exact ih F _ hF (fun Q hQ => hcs Q (List.mem_cons_of_mem _ hQ))

end KeyedFactory

section Persistence

open KeyedFactory Scenario

variable {K A : Type} [LinearOrder K]

/-- C12 (amended): a key that `find` locates in a factory is still located after any further
sequence of `registerProducer` and `createInstance` calls, where `createInstance` of it
returns what the producer then stored under it builds; every key of the map before is a
key of the map after (no call removes a key); and when the producers in the map and the
ones registered by the sequence are `KeyedProducer` objects, `createInstance` of the key
never returns `nullptr` afterwards. -/
theorem registered_key_persists (F : KeyedFactory K A) (k : K)
    (e : K × KeyedProducerBase K A) (hk : StdMap.find k F.producers = some e)
    (cs : List (FactoryCall K A)) (h : Heap A) :
    (∃ e1, StdMap.find k (F.run h cs).1.producers = some e1 ∧
      ∀ h1, (F.run h cs).1.createInstance k h1 = e1.2.createInstance h1) ∧
    (∀ x ∈ F.registeredKeys, x ∈ (F.run h cs).1.registeredKeys) ∧
    ((∀ e0 ∈ F.producers, ∃ addr T, e0.2 = KeyedProducer addr T) →
      (∀ P, FactoryCall.registerProducer P ∈ cs → ∃ addr T, P = KeyedProducer addr T) →
      ∀ h1, ((F.run h cs).1.createInstance k h1).1 ≠ none) := by
  obtain ⟨e1, he1⟩ := find_run_of_find_some F h cs k e hk
  refine ⟨⟨e1, he1, fun h1 => createInstance_of_find_some _ k h1 he1⟩,
    fun x hx => registeredKeys_run F h cs x hx, ?_⟩
  intro hF hcs h1
  obtain ⟨addr, T, hT⟩ := forall_producers_run (fun P => ∃ addr T, P = KeyedProducer addr T)
    F h cs hF hcs e1 (StdMap.mem_of_find_some _ _ _ he1)
  rw [createInstance_of_find_some _ k h1 he1, hT]
  simp [KeyedProducer, KeyedProducer.createInstance]

/-- Witness for C12: a factory holding `Alpha` is queried for `"alpha"`, receives `Beta`,
is queried for `"gamma"` and receives `Gamma1`; `"alpha"` is still served. -/
theorem registered_key_persists_witness :
    StdMap.find "alpha" (KeyedFactory.new.registerProducer (KeyedProducer 0 Alpha)).producers
      = some ("alpha", KeyedProducer 0 Alpha) ∧
    (∀ e0 ∈ (KeyedFactory.new.registerProducer (KeyedProducer 0 Alpha)).producers,
      ∃ addr T, e0.2 = KeyedProducer addr T) ∧
    (((KeyedFactory.new.registerProducer (KeyedProducer 0 Alpha)).run emptyHeap
      [FactoryCall.createInstance "alpha", FactoryCall.registerProducer (KeyedProducer 1 Beta),
       FactoryCall.createInstance "gamma",
       FactoryCall.registerProducer (KeyedProducer 2 Gamma1)]).1.createInstance "alpha"
        emptyHeap).1 ≠ none := by
  have hfind := find_registerProducer_self (KeyedFactory.new : KeyedFactory String Obj)
    (KeyedProducer 0 Alpha)
  have hF : ∀ e0 ∈ (KeyedFactory.new.registerProducer (KeyedProducer 0 Alpha)).producers,
      ∃ addr T, e0.2 = KeyedProducer addr T := by
    intro e0 he0
    rcases StdMap.mem_subscriptAssign _ _ _ e0 he0 with h1 | h1
    · exact ⟨0, Alpha, by rw [h1]⟩
    · simp [KeyedFactory.new] at h1
  have hcs : ∀ P, FactoryCall.registerProducer P ∈
      [FactoryCall.createInstance "alpha", FactoryCall.registerProducer (KeyedProducer 1 Beta),
       FactoryCall.createInstance "gamma",
       FactoryCall.registerProducer (KeyedProducer 2 Gamma1)] →
      ∃ addr T, P = KeyedProducer addr T := by
    intro P hP
    simp only [List.mem_cons, FactoryCall.registerProducer.injEq, List.mem_singleton,
      List.not_mem_nil, or_false] at hP
    rcases hP with h1 | h1 | h1 | h1
    · exact FactoryCall.noConfusion h1
    · exact ⟨1, Beta, h1⟩
    · exact FactoryCall.noConfusion h1
    · exact ⟨2, Gamma1, h1⟩
  have hthm := registered_key_persists
    (KeyedFactory.new.registerProducer (KeyedProducer 0 Alpha)) "alpha" _ hfind
    [FactoryCall.createInstance "alpha", FactoryCall.registerProducer (KeyedProducer 1 Beta),
     FactoryCall.createInstance "gamma",
     FactoryCall.registerProducer (KeyedProducer 2 Gamma1)] emptyHeap
  exact ⟨hfind, hF, hthm.2.2 hF hcs emptyHeap⟩

end Persistence

theorem StdMap.mem_subscriptAssign_of_mem {K V : Type} [LinearOrder K] (key : K) (v : V)
    (m : List (K × V)) (e : K × V) (he : e ∈ m) (hne : e.1 ≠ key) :
    e ∈ StdMap.subscriptAssign key v m := by
  induction m with
  | nil => simp at he
  | cons e0 rest ih =>
    unfold StdMap.subscriptAssign
    by_cases h1 : key < e0.1
    · rw [if_pos h1]
      exact List.mem_cons_of_mem _ he
    · rw [if_neg h1]
      by_cases h2 : e0.1 < key
      · rw [if_pos h2]
        rcases List.mem_cons.mp he with h | h
        · rw [h]; exact List.mem_cons_self _ _
        · exact List.mem_cons_of_mem _ (ih h)
      · rw [if_neg h2]
        have hk : e0.1 = key := le_antisymm (not_lt.mp h1) (not_lt.mp h2)
        rcases List.mem_cons.mp he with h | h
        · exact absurd (h ▸ hk) hne
        · exact List.mem_cons_of_mem _ h

section Frame

open KeyedFactory Scenario

variable {K A : Type} [LinearOrder K]

/-- C13: registering a producer with key `k` leaves every other key `k1` alone: `find(k1)`
returns the same entry (or `end()`) after the call as before, so `createInstance(k1)`
returns the same result, `k1` is a key of the map after exactly when it was before, and
the entries with a key other than `k` are the same before and after. -/
theorem registerProducer_frame (F : KeyedFactory K A) (P : KeyedProducerBase K A) (k1 : K)
    (h : Heap A) (hne : k1 ≠ P.getKey) :
    StdMap.find k1 (F.registerProducer P).producers = StdMap.find k1 F.producers ∧
    (F.registerProducer P).createInstance k1 h = F.createInstance k1 h ∧
    (k1 ∈ (F.registerProducer P).registeredKeys ↔ k1 ∈ F.registeredKeys) ∧
    (∀ e, e.1 ≠ P.getKey → (e ∈ (F.registerProducer P).producers ↔ e ∈ F.producers)) := by
  have hfind := find_registerProducer_of_ne F P hne
  refine ⟨hfind, ?_, ⟨?_, ?_⟩, ?_⟩
  · unfold KeyedFactory.createInstance
    rw [hfind]
  · intro hk
    rcases StdMap.mem_keys_subscriptAssign _ _ _ k1 hk with h1 | h1
    · exact absurd h1 hne
    · exact h1
  · exact StdMap.mem_keys_subscriptAssign_of_mem _ _ _ k1
  · intro e he
    constructor
    · intro hmem
      rcases StdMap.mem_subscriptAssign _ _ _ e hmem with h1 | h1
      · exact absurd (by rw [h1]) he
      · exact h1
    · intro hmem
      exact StdMap.mem_subscriptAssign_of_mem _ _ _ e hmem he

/-- Witness for C13: `Beta` is registered into a factory holding `Alpha`; `"alpha"` still
yields an `Alpha`. -/
theorem registerProducer_frame_witness :
    ("alpha" : String) ≠ (KeyedProducer 1 Beta).getKey ∧
    ((KeyedFactory.new.registerProducer (KeyedProducer 0 Alpha)).registerProducer
      (KeyedProducer 1 Beta)).createInstance "alpha" emptyHeap
      = (some 0, ⟨[⟨"Alpha", 0⟩]⟩) := by
  have hne : ("alpha" : String) ≠ (KeyedProducer 1 Beta).getKey := by
    simp [KeyedProducer, KeyedProducer.getKey, Beta]
  have hthm := registerProducer_frame
    (KeyedFactory.new.registerProducer (KeyedProducer 0 Alpha)) (KeyedProducer 1 Beta)
    "alpha" emptyHeap hne
  have hfind := find_registerProducer_self (KeyedFactory.new : KeyedFactory String Obj)
    (KeyedProducer 0 Alpha)
  have hres := createInstance_of_find_some _ "alpha" emptyHeap hfind
  exact ⟨hne, hthm.2.1.trans hres⟩

/-- C14: two registrations under different keys commute: `P1` then `P2` gives the same map
as `P2` then `P1`. Two registrations of different producers `Q1`, `Q2` under one key do
not: the two orders give different maps, the one holding `Q2` under the key, the other
`Q1`. -/
theorem registerProducer_comm (F : KeyedFactory K A) (P1 P2 Q1 Q2 : KeyedProducerBase K A) :
    (P1.getKey ≠ P2.getKey →
      (F.registerProducer P1).registerProducer P2
        = (F.registerProducer P2).registerProducer P1) ∧
    (Q1.getKey = Q2.getKey → Q1 ≠ Q2 →
      (F.registerProducer Q1).registerProducer Q2
        ≠ (F.registerProducer Q2).registerProducer Q1 ∧
      StdMap.find Q1.getKey ((F.registerProducer Q1).registerProducer Q2).producers
        = some (Q1.getKey, Q2) ∧
      StdMap.find Q1.getKey ((F.registerProducer Q2).registerProducer Q1).producers
        = some (Q1.getKey, Q1)) := by
  constructor
  · intro hne
    exact congrArg KeyedFactory.mk (StdMap.subscriptAssign_comm hne P1 P2 F.producers)
  · intro hk hQ
    have h21 : StdMap.find Q1.getKey ((F.registerProducer Q1).registerProducer Q2).producers
        = some (Q1.getKey, Q2) := by
      have h := find_registerProducer_self (F.registerProducer Q1) Q2
      rw [← hk] at h
      exact h
    have h12 := find_registerProducer_self (F.registerProducer Q2) Q1
    refine ⟨?_, h21, h12⟩
    intro heq
    rw [heq, h12] at h21
    exact hQ (Prod.mk.inj (Option.some.inj h21)).2

/-- Witness for C14: `Beta` and `Gamma1` commute on a factory holding `Alpha`; `Gamma1` and
`Gamma2`, both under `"gamma"`, do not. -/
theorem registerProducer_comm_witness :
    (KeyedProducer 1 Beta).getKey ≠ (KeyedProducer 2 Gamma1).getKey ∧
    (KeyedProducer 2 Gamma1).getKey = (KeyedProducer 3 Gamma2).getKey ∧
    KeyedProducer 2 Gamma1 ≠ KeyedProducer 3 Gamma2 ∧
    ((KeyedFactory.new.registerProducer (KeyedProducer 0 Alpha)).registerProducer
        (KeyedProducer 1 Beta)).registerProducer (KeyedProducer 2 Gamma1)
      = ((KeyedFactory.new.registerProducer (KeyedProducer 0 Alpha)).registerProducer
        (KeyedProducer 2 Gamma1)).registerProducer (KeyedProducer 1 Beta) ∧
    ((KeyedFactory.new.registerProducer (KeyedProducer 0 Alpha)).registerProducer
        (KeyedProducer 2 Gamma1)).registerProducer (KeyedProducer 3 Gamma2)
      ≠ ((KeyedFactory.new.registerProducer (KeyedProducer 0 Alpha)).registerProducer
        (KeyedProducer 3 Gamma2)).registerProducer (KeyedProducer 2 Gamma1) := by
  have hne : (KeyedProducer 1 Beta).getKey ≠ (KeyedProducer 2 Gamma1).getKey := by
    simp [KeyedProducer, KeyedProducer.getKey, Beta, Gamma1]
  have hQ : KeyedProducer 2 Gamma1 ≠ KeyedProducer 3 Gamma2 := by
    intro h
    have h2 := congrArg KeyedProducerBase.addr h
    simp [KeyedProducer] at h2
  have hthm := registerProducer_comm
    (KeyedFactory.new.registerProducer (KeyedProducer 0 Alpha))
    (KeyedProducer 1 Beta) (KeyedProducer 2 Gamma1)
    (KeyedProducer 2 Gamma1) (KeyedProducer 3 Gamma2)
  exact ⟨hne, rfl, hQ, hthm.1 hne, (hthm.2 rfl hQ).1⟩

/-- C15: registering a producer twice in a row gives exactly the map that registering it
once gives, and registering a producer that `find` already returns for its key leaves
the map as it is. -/
theorem registerProducer_idempotent (F : KeyedFactory K A) (P : KeyedProducerBase K A) :
    (F.registerProducer P).registerProducer P = F.registerProducer P ∧
    (∀ e, StdMap.find P.getKey F.producers = some e → e.2 = P →
      F.registerProducer P = F) := by
  constructor
  · exact congrArg KeyedFactory.mk (StdMap.subscriptAssign_idem P.getKey P F.producers)
  · intro e he hP
    have h := StdMap.subscriptAssign_of_find_some P.getKey F.producers e he
    rw [hP] at h
    exact congrArg KeyedFactory.mk h

/-- Witness for C15: `Alpha` registered again into the factory that holds it. -/
theorem registerProducer_idempotent_witness :
    StdMap.find (KeyedProducer 0 Alpha).getKey
      (KeyedFactory.new.registerProducer (KeyedProducer 0 Alpha)).producers
      = some ("alpha", KeyedProducer 0 Alpha) ∧
    (KeyedFactory.new.registerProducer (KeyedProducer 0 Alpha)).registerProducer
      (KeyedProducer 0 Alpha)
      = KeyedFactory.new.registerProducer (KeyedProducer 0 Alpha) := by
  have hfind := find_registerProducer_self (KeyedFactory.new : KeyedFactory String Obj)
    (KeyedProducer 0 Alpha)
  have hthm := registerProducer_idempotent
    (KeyedFactory.new.registerProducer (KeyedProducer 0 Alpha)) (KeyedProducer 0 Alpha)
  exact ⟨hfind, hthm.2 _ hfind rfl⟩

end Frame

/-! ## Producers that return `nullptr` -/

section NullResults

open KeyedFactory Scenario

/-- C2, as stated, fails in its converse: a producer with key `"alpha"` whose
`createInstance()` returns `nullptr` is registered into a fresh factory, and
`createInstance("alpha")` is absent although a producer with that key was registered. -/
theorem absent_result_with_registered_key :
    NullProducer ∈ [NullProducer] ∧
    NullProducer.getKey = "alpha" ∧
    (KeyedFactory.new.registerAll [NullProducer]).createInstance "alpha" emptyHeap
      = (none, emptyHeap) ∧
    ((KeyedFactory.new.registerAll [NullProducer]).createInstance "alpha" emptyHeap).1
      = none ∧
    ¬ (∀ P ∈ [NullProducer], P.getKey ≠ "alpha") := by
  have hfind := find_registerProducer_self (KeyedFactory.new : KeyedFactory String Obj)
    NullProducer
  have hres : (KeyedFactory.new.registerAll [NullProducer]).createInstance "alpha" emptyHeap
      = (none, emptyHeap) :=
    createInstance_of_find_some (KeyedFactory.new.registerProducer NullProducer) "alpha"
      emptyHeap hfind
  refine ⟨List.mem_cons_self _ _, rfl, hres, by rw [hres], ?_⟩
  intro hall
  exact hall NullProducer (List.mem_cons_self _ _) rfl

/-- C12, as stated, fails in "never absent again": in a factory holding `Alpha` the key
`"alpha"` is registered and `createInstance("alpha")` builds an `Alpha`; after one more
`registerProducer` call, of a producer with key `"alpha"` whose `createInstance()`
returns `nullptr`, the key is still in the map but `createInstance("alpha")` is absent. -/
theorem registered_key_absent_again :
    StdMap.find "alpha" (KeyedFactory.new.registerProducer (KeyedProducer 0 Alpha)).producers
      = some ("alpha", KeyedProducer 0 Alpha) ∧
    (KeyedFactory.new.registerProducer (KeyedProducer 0 Alpha)).createInstance "alpha"
      emptyHeap = (some 0, ⟨[⟨"Alpha", 0⟩]⟩) ∧
    StdMap.find "alpha" ((KeyedFactory.new.registerProducer (KeyedProducer 0 Alpha)).run
      emptyHeap [FactoryCall.registerProducer NullProducer]).1.producers
      = some ("alpha", NullProducer) ∧
    (((KeyedFactory.new.registerProducer (KeyedProducer 0 Alpha)).run emptyHeap
      [FactoryCall.registerProducer NullProducer]).1.createInstance "alpha" emptyHeap).1
      = none := by
  have hfind := find_registerProducer_self (KeyedFactory.new : KeyedFactory String Obj)
    (KeyedProducer 0 Alpha)
  have hres := createInstance_of_find_some _ "alpha" emptyHeap hfind
  have hfind2 := find_registerProducer_self
    (KeyedFactory.new.registerProducer (KeyedProducer 0 Alpha)) NullProducer
  have hres2 : (((KeyedFactory.new.registerProducer (KeyedProducer 0 Alpha)).run emptyHeap
      [FactoryCall.registerProducer NullProducer]).1.createInstance "alpha" emptyHeap)
      = (none, emptyHeap) :=
    createInstance_of_find_some
      ((KeyedFactory.new.registerProducer (KeyedProducer 0 Alpha)).registerProducer
        NullProducer) "alpha" emptyHeap hfind2
  exact ⟨hfind, hres, hfind2, by rw [hres2]⟩

end NullResults

end XenoScan
